import Mathlib

/-!
Verification of the UX4AI aggregation core against its specification.

The definitions below are a shallow embedding of the Python sources:

* `load_and_process_data`, `load_solution_data`, the spider-diagram
  projection and the overview generator of `dashboard_server.py`;
* the `__main__` aggregation and solution loading of
  `generate_summary_report.py` / `per_student_report.py`;
* `capture_all_data` of `user_server.py`.

Strings that undergo character-level transformations (lowercasing,
character replacement, Python `title`/`capitalize`/`split`) are modelled
as lists of Unicode code points (`List Nat`), with the ASCII case rules
that the program's data exercises.  Scores are modelled as rationals,
JSON objects as association lists, and the file system as explicit data
(a directory tree for the submission store, association lists keyed by
path for the solution store and the capture output).
-/

namespace UX4AI

/-! ## Character-code utilities (Python string primitives) -/

/-- Code of `'.'`, `'j'`, `'s'`, `'o'`, `'n'`: the `".json"` extension. -/
def extCodes : List Nat := [46, 106, 115, 111, 110]

/-- Convert a Lean string literal to its list of code points (used only
to write concrete inputs readably). -/
def strCodes (s : String) : List Nat := s.data.map Char.toNat

/-- ASCII model of Python `str.lower` on one code point. -/
def lowerCode (c : Nat) : Nat := if 65 ≤ c ∧ c ≤ 90 then c + 32 else c

/-- ASCII model of Python `str.upper` on one code point. -/
def upperCode (c : Nat) : Nat := if 97 ≤ c ∧ c ≤ 122 then c - 32 else c

/-- Is this code point an ASCII letter (model of `str.isalpha` per char)? -/
def isAlphaCode (c : Nat) : Bool := decide ((65 ≤ c ∧ c ≤ 90) ∨ (97 ≤ c ∧ c ≤ 122))

/-- Is this code point Python whitespace (`str.split`/`str.strip`)? -/
def isSpaceCode (c : Nat) : Bool :=
  decide (c = 32 ∨ c = 9 ∨ c = 10 ∨ c = 13 ∨ c = 11 ∨ c = 12)

/-- `s.lower()` on a whole string. -/
def pyLower (s : List Nat) : List Nat := s.map lowerCode

/-- `s.replace(a, b)` for single-character `a`, `b`. -/
def replaceChar (s : List Nat) (a b : Nat) : List Nat :=
  s.map (fun c => if c = a then b else c)

/-- Worker for `removeAll`, structurally recursive on a fuel bound that
dominates the remaining string length (the scan consumes at least one
character per step once `pat` is nonempty). -/
def removeAllAux (pat : List Nat) : Nat → List Nat → List Nat
  | 0, s => s
  | _ + 1, [] => []
  | fuel + 1, c :: t =>
    if (c :: t).take pat.length = pat ∧ pat ≠ [] then
      removeAllAux pat fuel ((c :: t).drop pat.length)
    else
      c :: removeAllAux pat fuel t

/-- `s.replace(pat, "")` for a multi-character pattern: remove every
(left-to-right, non-overlapping) occurrence of `pat`. -/
def removeAll (pat s : List Nat) : List Nat := removeAllAux pat s.length s

/-- Does `pat` occur as a contiguous substring of `s`? -/
def hasSub (pat : List Nat) : List Nat → Bool
  | [] => decide (pat = [])
  | c :: t => decide ((c :: t).take pat.length = pat) || hasSub pat t

/-- Python `str.title` on ASCII: an alphabetic character is uppercased
when the previous character is not alphabetic and lowercased otherwise;
`prev` records whether the previous character was alphabetic. -/
def pyTitleAux (prev : Bool) : List Nat → List Nat
  | [] => []
  | c :: t =>
    (if isAlphaCode c then (if prev then lowerCode c else upperCode c) else c)
      :: pyTitleAux (isAlphaCode c) t

/-- `s.title()`. -/
def pyTitle (s : List Nat) : List Nat := pyTitleAux false s

/-- `s.capitalize()`: first character uppercased, the rest lowercased. -/
def pyCapitalize : List Nat → List Nat
  | [] => []
  | c :: t => upperCode c :: t.map lowerCode

/-- `s.strip()`: drop leading and trailing whitespace. -/
def pyStrip (s : List Nat) : List Nat :=
  ((s.dropWhile isSpaceCode).reverse.dropWhile isSpaceCode).reverse

/-- Worker for `pySplit`: `acc` is the current word, reversed. -/
def pySplitAux : List Nat → List Nat → List (List Nat)
  | acc, [] => if acc = [] then [] else [acc.reverse]
  | acc, c :: t =>
    if isSpaceCode c then
      if acc = [] then pySplitAux [] t else acc.reverse :: pySplitAux [] t
    else pySplitAux (c :: acc) t

/-- `s.split()` with no separator: whitespace-delimited words, empty
words discarded. -/
def pySplit (s : List Nat) : List (List Nat) := pySplitAux [] s

/-- Model of `part.isalpha()`: nonempty and all-alphabetic. -/
def pyIsAlphaStr (p : List Nat) : Bool := !p.isEmpty && p.all isAlphaCode

/-! ## Association-list primitives (Python `dict` / `defaultdict`) -/

/-- `d.get(k)` on an insertion-ordered association list (also used for
file-system lookups keyed by filename or path). -/
def lookupA {κ α : Type} [DecidableEq κ] : List (κ × α) → κ → Option α
  | [], _ => none
  | (k, v) :: t, q => if k = q then some v else lookupA t q

/-- `d.get(k, 0)` for a `defaultdict(float)`-style mapping. -/
def getD0 (l : List (String × ℚ)) (k : String) : ℚ := (lookupA l k).getD 0

/-- `d[k] += v` on a `defaultdict(float)`: add in place, or append the
key with initial value `0` (insertion order preserved). -/
def bumpQ : List (String × ℚ) → String → ℚ → List (String × ℚ)
  | [], k, v => [(k, v)]
  | (k', v') :: t, k, v =>
    if k' = k then (k', v' + v) :: t else (k', v') :: bumpQ t k v

/-- `d[k] += 1` on a `defaultdict(int)`. -/
def bumpN : List (String × Nat) → String → List (String × Nat)
  | [], k => [(k, 1)]
  | (k', v') :: t, k =>
    if k' = k then (k', v' + 1) :: t else (k', v') :: bumpN t k

/-! ## Submission records and aggregation
(`load_and_process_data` in `dashboard_server.py`; the `__main__`
aggregation loop of `generate_summary_report.py` performs the same
per-record update) -/

/-- One parsed submission JSON object.  Optional JSON fields are
`Option`; `scores` is the (possibly absent = empty) `"scores"` object.
Python truthiness (`if not product_name`, `if data.get(...)`) is applied
at the use sites, mirroring the source. -/
structure Record where
  product_name : Option String
  scores : List (String × ℚ)
  ai_role : Option String
  risk_level : Option ℚ
  analytics_level : Option ℚ
deriving DecidableEq, Repr

/-- Python truthiness of an optional string: `None` and `""` are falsy. -/
def truthyS : Option String → Option String
  | some s => if s = "" then none else some s
  | none => none

/-- The running per-product aggregate (`aggregated_data[product]`). -/
structure Agg where
  count : Nat
  scores : List (String × ℚ)
  ai_role_counts : List (String × Nat)
  risk_level_sum : ℚ
  analytics_level_sum : ℚ
deriving DecidableEq, Repr

/-- `defaultdict` initial value for a product's aggregate. -/
def emptyAgg : Agg := ⟨0, [], [], 0, 0⟩

/-- The body of the aggregation loop for one record that reached its
product's aggregate (lines 44–57 of `dashboard_server.py`). -/
def addRecord (a : Agg) (r : Record) : Agg :=
  { count := a.count + 1
    scores := r.scores.foldl (fun l kv => bumpQ l kv.1 kv.2) a.scores
    ai_role_counts :=
      match truthyS r.ai_role with
      | some role => bumpN a.ai_role_counts role
      | none => a.ai_role_counts
    risk_level_sum := a.risk_level_sum + r.risk_level.getD 0
    analytics_level_sum := a.analytics_level_sum + r.analytics_level.getD 0 }

/-- Update the outer product-keyed mapping at `p` with record `r`,
creating the entry (as the `defaultdict` does) when absent. -/
def upsertAgg : List (String × Agg) → String → Record → List (String × Agg)
  | [], p, r => [(p, addRecord emptyAgg r)]
  | (q, a) :: t, p, r =>
    if q = p then (q, addRecord a r) :: t else (q, a) :: upsertAgg t p r

/-- Process one parsed record: records without a truthy `product_name`
are skipped (`if not product_name: continue`). -/
def stepRecord (m : List (String × Agg)) (r : Record) : List (String × Agg) :=
  match truthyS r.product_name with
  | none => m
  | some p => upsertAgg m p r

/-- The whole aggregation loop over the parsed records, in scan order. -/
def aggregateAll (rs : List Record) : List (String × Agg) :=
  rs.foldl stepRecord []

/-- One entry of the final `processed_data` dictionary. -/
structure ProcAgg where
  count : Nat
  avg_scores : List (String × ℚ)
  ai_role_counts : List (String × Nat)
  avg_risk_level : ℚ
  avg_analytics_level : ℚ
deriving DecidableEq, Repr

/-- The average-forming step (lines 64–73 of `dashboard_server.py`). -/
def procOf (a : Agg) : ProcAgg :=
  { count := a.count
    avg_scores := a.scores.map (fun kv => (kv.1, kv.2 / (a.count : ℚ)))
    ai_role_counts := a.ai_role_counts
    avg_risk_level := a.risk_level_sum / (a.count : ℚ)
    avg_analytics_level := a.analytics_level_sum / (a.count : ℚ) }

/-- `processed_data`: every aggregated product with `count > 0`. -/
def processAll (rs : List Record) : List (String × ProcAgg) :=
  (aggregateAll rs).filterMap
    (fun pa => if pa.2.count > 0 then some (pa.1, procOf pa.2) else none)

/-! ## Declarative (spec-side) quantities -/

/-- The records attributed to product `p`: exactly those whose truthy
`product_name` equals `p`. -/
def recordsFor (rs : List Record) (p : String) : List Record :=
  rs.filter (fun r => truthyS r.product_name = some p)

/-- The spec's `sample_count` for entity `p`. -/
def sampleCount (rs : List Record) (p : String) : Nat :=
  (recordsFor rs p).length

/-- The total score one record supplies for dimension `d` (0 when it
does not supply `d`). -/
def suppliedSum (r : Record) (d : String) : ℚ :=
  ((r.scores.filter (fun kv => kv.1 = d)).map Prod.snd).sum

/-- The spec's `dimension_sum[d]` for entity `p`: sum of the scores
supplied for `d` across the entity's records. -/
def dimSum (rs : List Record) (p : String) (d : String) : ℚ :=
  ((recordsFor rs p).map (fun r => suppliedSum r d)).sum

/-! ## The submission store (directory tree) and the two scanners -/

/-- What `json.load` does to one candidate file: parse failure / read
failure, or a parsed record. -/
inductive FileContent where
  | malformed
  | parsed (r : Record)
deriving DecidableEq, Repr

mutual
/-- A directory: its regular files (name, content) and subdirectories. -/
inductive DirTree where
  | node : List (String × FileContent) → DirForest → DirTree

/-- A list of named subdirectories. -/
inductive DirForest where
  | nil : DirForest
  | cons : String → DirTree → DirForest → DirForest
end

mutual
/-- All files of the tree, at every depth, in `os.walk` (top-down)
order. -/
def walkTree : DirTree → List (String × FileContent)
  | .node fs forest => fs ++ walkForest forest

def walkForest : DirForest → List (String × FileContent)
  | .nil => []
  | .cons _ t rest => walkTree t ++ walkForest rest
end

/-- `name.endswith(".json")`, on the character list of the name. -/
def endsWithJson (name : String) : Bool :=
  decide (name.data.reverse.take 5 = ['n', 'o', 's', 'j', '.'])

/-- Handle one directory listing of candidate files: keep `.json` files
that parse, emit a diagnostic (counted) and skip on parse/read failure,
ignore other files (lines 31–60 of `dashboard_server.py`). -/
def scanFiles : List (String × FileContent) → List Record × Nat
  | [] => ([], 0)
  | (name, c) :: t =>
    let rest := scanFiles t
    if endsWithJson name then
      match c with
      | .parsed r => (r :: rest.1, rest.2)
      | .malformed => (rest.1, rest.2 + 1)
    else rest

mutual
/-- The `os.walk` scan of `dashboard_server.py`: parsed records in
encounter order, plus the number of diagnostics emitted. -/
def scanTree : DirTree → List Record × Nat
  | .node fs forest =>
    ((scanFiles fs).1 ++ (scanForest forest).1, (scanFiles fs).2 + (scanForest forest).2)

def scanForest : DirForest → List Record × Nat
  | .nil => ([], 0)
  | .cons _ t rest =>
    ((scanTree t).1 ++ (scanForest rest).1, (scanTree t).2 + (scanForest rest).2)
end

/-- `load_and_process_data` of `dashboard_server.py`; `none` models an
absent `DATA_DIR` (warning printed, empty mapping returned).  Result:
the `processed_data` mapping and the number of diagnostics emitted. -/
def load_and_process_data : Option DirTree → List (String × ProcAgg) × Nat
  | none => ([], 1)
  | some t => (processAll (scanTree t).1, (scanTree t).2)

/-- Subdirectories of a user directory whose names end in `".json"`:
`os.listdir` lists them, they pass the extension test, and `open` fails
with `IsADirectoryError` (an `OSError`, caught as `IOError`), producing
a diagnostic in the summary-report scanner. -/
def countJsonNamedDirs : DirForest → Nat
  | .nil => 0
  | .cons name _ rest =>
    (if endsWithJson name then 1 else 0) + countJsonNamedDirs rest

/-- One first-level user directory as read by the summary-report
scanner: only its immediate `.json` files are parsed. -/
def scanUserDir : DirTree → List Record × Nat
  | .node fs subs => ((scanFiles fs).1, (scanFiles fs).2 + countJsonNamedDirs subs)

/-- The first-level directories of the data root, scanned in order. -/
def summaryForest : DirForest → List Record × Nat
  | .nil => ([], 0)
  | .cons _ t rest =>
    ((scanUserDir t).1 ++ (summaryForest rest).1,
      (scanUserDir t).2 + (summaryForest rest).2)

/-- The `__main__` scan of `generate_summary_report.py` (lines 170–214):
`os.listdir` on the data root, descend only into entries that are
directories, and read only their immediate `.json` files; regular files
of the root itself are skipped by the `isdir` test. -/
def summaryScan : DirTree → List Record × Nat
  | .node _rootFiles forest => summaryForest forest

/-- A chain of `n` nested directories with the given files at the
bottom: used to express depth-independence of the `os.walk` scanner. -/
def deepTree : Nat → List (String × FileContent) → DirTree
  | 0, fs => .node fs .nil
  | n + 1, fs => .node [] (.cons "sub" (deepTree n fs) .nil)

/-! ## The reference (solution) loader -/

/-- Contents of the solution directory: filenames (as code-point lists)
to file contents. -/
inductive SolContent where
  | malformed
  | parsed (d : Record)
deriving DecidableEq, Repr

/-- `safe_filename` of `load_solution_data`: lowercase the product name,
replace `' '` with `'_'`, then `'/'` with `'_'`, append `".json"`. -/
def safe_filename (product_name : List Nat) : List Nat :=
  replaceChar (replaceChar (pyLower product_name) 32 95) 47 95 ++ extCodes

/-- `load_solution_data` (`dashboard_server.py` lines 77–90, identical
in both report generators): absent file → `none` with no diagnostic;
malformed file → `none` plus one diagnostic; parsed file → its data. -/
def load_solution_data (fs : List (List Nat × SolContent))
    (product_name : List Nat) : Option Record × Nat :=
  match lookupA fs (safe_filename product_name) with
  | none => (none, 0)
  | some .malformed => (none, 1)
  | some (.parsed d) => (some d, 0)

/-- Spec-side description of the filename derivation: one pass over the
name, lowercasing letters and mapping space and `'/'` to `'_'`. -/
def safeCharSpec (c : Nat) : Nat :=
  if 65 ≤ c ∧ c ≤ 90 then c + 32 else if c = 32 ∨ c = 47 then 95 else c

/-- Spec-side filename derivation, to be compared with
`safe_filename`. -/
def safeFilenameSpec (n : List Nat) : List Nat := n.map safeCharSpec ++ extCodes

/-- The report generators' derivation of a product name from a solution
filename: `filename.replace(".json", "").replace("_", " ").title()`
(`generate_summary_report.py` line 150, `per_student_report.py`
line 323). -/
def filename_to_product_name (f : List Nat) : List Nat :=
  pyTitle (replaceChar (removeAll extCodes f) 95 32)

/-! ## Submission capture (`capture_all_data` of `user_server.py`) -/

/-- What one captured submission file records (only the parts the claims
concern). -/
structure Payload where
  username : List Nat
  product_name : List Nat
deriving DecidableEq, Repr

/-- A file path, as components. -/
abbrev CapturePath := List (List Nat)

/-- The on-disk submission store; writing (mode `"w"`) overwrites an
existing path or creates a new file. -/
def upsertFS : List (CapturePath × Payload) → CapturePath → Payload →
    List (CapturePath × Payload)
  | [], p, v => [(p, v)]
  | (q, w) :: t, p, v => if q = p then (q, v) :: t else (q, w) :: upsertFS t p v

/-- Outcome of `capture_all_data`: the two error messages, or success. -/
inductive CaptureStatus where
  | errFullName
  | errSpecifyProduct
  | saved
deriving DecidableEq, Repr

/-- `username_full.strip().split()`. -/
def nameParts (u : List Nat) : List (List Nat) := pySplit (pyStrip u)

/-- The validation of lines 127–128: at least two parts, all
alphabetic. -/
def validFullName (u : List Nat) : Bool :=
  decide (2 ≤ (nameParts u).length) && (nameParts u).all pyIsAlphaStr

/-- `username_parts[0][0].upper() + username_parts[-1].capitalize()`. -/
def formattedUsername (u : List Nat) : List Nat :=
  (((nameParts u).headD []).take 1).map upperCode
    ++ pyCapitalize ((nameParts u).getLastD [])

/-- The sanitized product name used in the saved filename. -/
def safe_product_name (p : List Nat) : List Nat :=
  replaceChar (replaceChar (pyLower p) 32 95) 47 95

/-- The path the submission is saved at:
`./data/<formatted_username>/<safe_product_name>.json`. -/
def capturePath (u pname : List Nat) : CapturePath :=
  [strCodes "./data", formattedUsername u, safe_product_name pname ++ extCodes]

/-- `capture_all_data` (`user_server.py` lines 113–184), restricted to
its observable effect on the submission store and its status. -/
def capture_all_data (fs : List (CapturePath × Payload))
    (username_full selected_product other_product_name : List Nat) :
    List (CapturePath × Payload) × CaptureStatus :=
  if validFullName username_full then
    if selected_product = strCodes "Other" then
      if pyStrip other_product_name = [] then (fs, .errSpecifyProduct)
      else
        (upsertFS fs (capturePath username_full (pyStrip other_product_name))
          ⟨formattedUsername username_full, pyStrip other_product_name⟩, .saved)
    else
      (upsertFS fs (capturePath username_full selected_product)
        ⟨formattedUsername username_full, selected_product⟩, .saved)
  else (fs, .errFullName)

/-! ## Projection onto the canonical dimensions and the overview -/

/-- The fixed label list of `create_spider_diagram_plotly`
(`dashboard_server.py` line 96). -/
def dashLabels : List String :=
  ["conversational", "personalization", "autonomy", "accessibility", "explainability"]

/-- The radial values of the spider trace:
`[avg_scores.get(label, 0) for label in labels]`. -/
def spiderValues (avg_scores : List (String × ℚ)) : List ℚ :=
  dashLabels.map (getD0 avg_scores)

/-- One overview entry per product: a plot when `avg_scores` is truthy
(nonempty), a warning paragraph otherwise. -/
inductive OverviewEntry where
  | plot (product : String) (values : List ℚ)
  | warning (product : String)
deriving DecidableEq, Repr

/-- The per-product loop of `generate_overview_html`
(`dashboard_server.py` lines 292–305): output is produced for every
product. -/
def generate_overview (m : List (String × ProcAgg)) : List OverviewEntry :=
  m.map (fun pa =>
    if pa.2.avg_scores.isEmpty then .warning pa.1
    else .plot pa.1 (spiderValues pa.2.avg_scores))

/-! ## Derived definitions used by the statements -/

/-- The aggregation fold restricted to one entity's records. -/
def aggFor (rs : List Record) (p : String) : Agg :=
  (recordsFor rs p).foldl addRecord emptyAgg

/-- Parse outcome of one candidate file. -/
def parseOk : FileContent → Option Record
  | .parsed r => some r
  | .malformed => none

/-- Is this candidate file malformed? -/
def isMalformed : FileContent → Bool
  | .malformed => true
  | .parsed _ => false

/-- The candidate (`.json`) files of the whole tree, in walk order. -/
def jsonFiles (t : DirTree) : List (String × FileContent) :=
  (walkTree t).filter (fun f => endsWithJson f.1)

/-- The immediate files of the first-level subdirectories of the data
root: the only files the summary-report scanner ever reads. -/
def firstLevelFiles : DirForest → List (String × FileContent)
  | .nil => []
  | .cons _ (.node fs _) rest => fs ++ firstLevelFiles rest

/-- Claim C8 as stated, instantiated at the summary-report scanner that
the claim also covers: every parsed `.json` file at any nesting depth
contributes a record. -/
def c8Stated : Prop :=
  ∀ (t : DirTree) (r : Record),
    (∃ f ∈ jsonFiles t, f.2 = FileContent.parsed r) → r ∈ (summaryScan t).1

/-- Claim C9's success half as stated: a valid full name alone
guarantees that exactly one file is written. -/
def c9Stated : Prop :=
  ∀ (fs : List (CapturePath × Payload)) (u sp op : List Nat),
    validFullName u = true →
    ∃ pname, capture_all_data fs u sp op =
      (upsertFS fs (capturePath u pname) ⟨formattedUsername u, pname⟩,
        CaptureStatus.saved)

/-- Claim C10 as stated: the filename→product-name→filename round trip
is the identity on every `<base>.json` whose base is lowercase with no
spaces and no slashes. -/
def c10Stated : Prop :=
  ∀ base : List Nat,
    (∀ c ∈ base, ¬(65 ≤ c ∧ c ≤ 90) ∧ c ≠ 32 ∧ c ≠ 47) →
    safe_filename (filename_to_product_name (base ++ extCodes)) = base ++ extCodes

/-! ## Lemmas about the aggregation fold -/

theorem recordsFor_cons_skip {r : Record} {p : String} (rs : List Record)
    (h : truthyS r.product_name ≠ some p) :
    recordsFor (r :: rs) p = recordsFor rs p := by
  simp [recordsFor, List.filter_cons, h]

theorem recordsFor_cons_hit {r : Record} {p : String} (rs : List Record)
    (h : truthyS r.product_name = some p) :
    recordsFor (r :: rs) p = r :: recordsFor rs p := by
  simp [recordsFor, List.filter_cons, h]

theorem aggFor_cons_skip {r : Record} {p : String} (rs : List Record)
    (h : truthyS r.product_name ≠ some p) :
    aggFor (r :: rs) p = aggFor rs p := by
  simp [aggFor, recordsFor_cons_skip rs h]

theorem lookupA_upsertAgg (m : List (String × Agg)) (p q : String) (r : Record) :
    lookupA (upsertAgg m p r) q =
      if q = p then some (addRecord ((lookupA m p).getD emptyAgg) r)
      else lookupA m q := by
  induction m with
  | nil =>
    by_cases h : q = p
    · subst h; simp [upsertAgg, lookupA]
    · simp [upsertAgg, lookupA, h, Ne.symm h]
  | cons kv t ih =>
    obtain ⟨k, a⟩ := kv
    by_cases hkp : k = p
    · subst hkp
      by_cases hq : q = k
      · subst hq; simp [upsertAgg, lookupA]
      · simp [upsertAgg, lookupA, hq, Ne.symm hq]
    · by_cases hqp : q = p
      · subst hqp
        simp [upsertAgg, lookupA, hkp, ih]
      · by_cases hkq : k = q
        · subst hkq
          simp [upsertAgg, lookupA, hkp, hqp, ih]
        · simp [upsertAgg, lookupA, hkp, hqp, hkq, ih]

theorem lookupA_foldl_some {rs : List Record} {m : List (String × Agg)}
    {p : String} {a : Agg} (hm : lookupA m p = some a) :
    lookupA (rs.foldl stepRecord m) p =
      some ((recordsFor rs p).foldl addRecord a) := by
  induction rs generalizing m a with
  | nil => simpa [recordsFor] using hm
  | cons r rs ih =>
    simp only [List.foldl_cons]
    rcases hname : truthyS r.product_name with _ | q
    · have hstep : stepRecord m r = m := by simp [stepRecord, hname]
      have hfilter : recordsFor (r :: rs) p = recordsFor rs p :=
        recordsFor_cons_skip rs (by simp [hname])
      rw [hstep, hfilter]
      exact ih hm
    · have hstep : stepRecord m r = upsertAgg m q r := by simp [stepRecord, hname]
      rw [hstep]
      by_cases hqp : q = p
      · subst hqp
        have h1 : lookupA (upsertAgg m q r) q = some (addRecord a r) := by
          rw [lookupA_upsertAgg]; simp [hm]
        have hfilter : recordsFor (r :: rs) q = r :: recordsFor rs q :=
          recordsFor_cons_hit rs hname
        rw [hfilter, List.foldl_cons]
        exact ih h1
      · have h1 : lookupA (upsertAgg m q r) p = some a := by
          rw [lookupA_upsertAgg, if_neg (fun hh => hqp hh.symm)]; exact hm
        have hfilter : recordsFor (r :: rs) p = recordsFor rs p :=
          recordsFor_cons_skip rs (by simp [hname, hqp])
        rw [hfilter]
        exact ih h1

theorem lookupA_foldl_none {rs : List Record} {m : List (String × Agg)}
    {p : String} (hm : lookupA m p = none) :
    lookupA (rs.foldl stepRecord m) p =
      if recordsFor rs p = [] then none else some (aggFor rs p) := by
  induction rs generalizing m with
  | nil => simpa [recordsFor] using hm
  | cons r rs ih =>
    simp only [List.foldl_cons]
    rcases hname : truthyS r.product_name with _ | q
    · have hskip : truthyS r.product_name ≠ some p := by simp [hname]
      have hstep : stepRecord m r = m := by simp [stepRecord, hname]
      rw [hstep, recordsFor_cons_skip rs hskip, aggFor_cons_skip rs hskip]
      exact ih hm
    · have hstep : stepRecord m r = upsertAgg m q r := by simp [stepRecord, hname]
      rw [hstep]
      by_cases hqp : q = p
      · subst hqp
        have h1 : lookupA (upsertAgg m q r) q = some (addRecord emptyAgg r) := by
          rw [lookupA_upsertAgg]; simp [hm]
        have hfilter : recordsFor (r :: rs) q = r :: recordsFor rs q :=
          recordsFor_cons_hit rs hname
        rw [lookupA_foldl_some h1, hfilter]
        simp [aggFor, hfilter]
      · have hskip : truthyS r.product_name ≠ some p := by simp [hname, hqp]
        have h1 : lookupA (upsertAgg m q r) p = none := by
          rw [lookupA_upsertAgg, if_neg (fun hh => hqp hh.symm)]; exact hm
        rw [recordsFor_cons_skip rs hskip, aggFor_cons_skip rs hskip]
        exact ih h1

theorem lookupA_aggregateAll (rs : List Record) (p : String) :
    lookupA (aggregateAll rs) p =
      if recordsFor rs p = [] then none else some (aggFor rs p) :=
  lookupA_foldl_none (by simp [lookupA])

theorem foldl_addRecord_count (l : List Record) (a : Agg) :
    (l.foldl addRecord a).count = a.count + l.length := by
  induction l generalizing a with
  | nil => simp
  | cons r t ih => simp [ih, addRecord]; omega

theorem aggFor_count (rs : List Record) (p : String) :
    (aggFor rs p).count = sampleCount rs p := by
  simp [aggFor, foldl_addRecord_count, emptyAgg, sampleCount]

theorem getD0_bumpQ (l : List (String × ℚ)) (k : String) (v : ℚ) (d : String) :
    getD0 (bumpQ l k v) d = getD0 l d + if k = d then v else 0 := by
  induction l with
  | nil =>
    by_cases h : k = d <;> simp [bumpQ, getD0, lookupA, h]
  | cons kv t ih =>
    obtain ⟨k', v'⟩ := kv
    by_cases hk : k' = k
    · subst hk
      by_cases hd : k' = d <;> simp [bumpQ, getD0, lookupA, hd]
    · by_cases hd : k' = d
      · subst hd
        have hkd : ¬k = k' := fun hh => hk hh.symm
        simp [bumpQ, getD0, lookupA, hk, hkd]
      · have hgoal : getD0 ((k', v') :: bumpQ t k v) d = getD0 (bumpQ t k v) d := by
          simp [getD0, lookupA, hd]
        have hsplit : bumpQ ((k', v') :: t) k v = (k', v') :: bumpQ t k v := by
          simp [bumpQ, hk]
        rw [hsplit, hgoal, ih]
        have : getD0 ((k', v') :: t) d = getD0 t d := by simp [getD0, lookupA, hd]
        rw [this]

theorem getD0_foldl_bumpQ (pairs l : List (String × ℚ)) (d : String) :
    getD0 (pairs.foldl (fun acc kv => bumpQ acc kv.1 kv.2) l) d =
      getD0 l d + ((pairs.filter (fun kv => kv.1 = d)).map Prod.snd).sum := by
  induction pairs generalizing l with
  | nil => simp
  | cons kv t ih =>
    obtain ⟨k, v⟩ := kv
    by_cases h : k = d
    · subst h
      simp [List.filter_cons, ih, getD0_bumpQ]
      ring
    · simp [List.filter_cons, h, ih, getD0_bumpQ]

theorem foldl_addRecord_scores (l : List Record) (a : Agg) (d : String) :
    getD0 (l.foldl addRecord a).scores d =
      getD0 a.scores d + (l.map (fun r => suppliedSum r d)).sum := by
  induction l generalizing a with
  | nil => simp
  | cons r t ih =>
    have hadd : getD0 (addRecord a r).scores d = getD0 a.scores d + suppliedSum r d := by
      simp [addRecord, getD0_foldl_bumpQ, suppliedSum]
    simp [ih, hadd]
    ring

theorem aggFor_scores (rs : List Record) (p d : String) :
    getD0 (aggFor rs p).scores d = dimSum rs p d := by
  unfold aggFor
  rw [foldl_addRecord_scores]
  simp [emptyAgg, getD0, lookupA, dimSum]

theorem mem_upsertAgg {pa : String × Agg} {m : List (String × Agg)}
    {p : String} {r : Record} (h : pa ∈ upsertAgg m p r) :
    pa ∈ m ∨ ∃ a, pa.2 = addRecord a r := by
  induction m with
  | nil =>
    simp [upsertAgg] at h
    exact Or.inr ⟨emptyAgg, by simp [h]⟩
  | cons kv t ih =>
    obtain ⟨k, a⟩ := kv
    by_cases hk : k = p
    · subst hk
      simp [upsertAgg] at h
      rcases h with h | h
      · exact Or.inr ⟨a, by simp [h]⟩
      · exact Or.inl (List.mem_cons_of_mem _ h)
    · simp [upsertAgg, hk] at h
      rcases h with h | h
      · exact Or.inl (by simp [h])
      · rcases ih h with h' | h'
        · exact Or.inl (List.mem_cons_of_mem _ h')
        · exact Or.inr h'

theorem count_pos_foldl {rs : List Record} {m : List (String × Agg)}
    (hm : ∀ pa ∈ m, 0 < pa.2.count) :
    ∀ pa ∈ rs.foldl stepRecord m, 0 < pa.2.count := by
  induction rs generalizing m with
  | nil => exact hm
  | cons r rs ih =>
    simp only [List.foldl_cons]
    apply ih
    intro pa hpa
    rcases hname : truthyS r.product_name with _ | q
    · rw [stepRecord, hname] at hpa
      exact hm pa hpa
    · rw [stepRecord, hname] at hpa
      rcases mem_upsertAgg hpa with h | ⟨a, h⟩
      · exact hm pa h
      · rw [h]; simp [addRecord]

theorem count_pos_aggregateAll {rs : List Record} :
    ∀ pa ∈ aggregateAll rs, 0 < pa.2.count :=
  count_pos_foldl (by simp)

theorem filterMap_pos_eq_map (l : List (String × Agg))
    (h : ∀ pa ∈ l, 0 < pa.2.count) :
    l.filterMap (fun pa => if pa.2.count > 0 then some (pa.1, procOf pa.2) else none) =
      l.map (fun pa => (pa.1, procOf pa.2)) := by
  induction l with
  | nil => simp
  | cons pa t ih =>
    have hpa : 0 < pa.2.count := h pa (by simp)
    simp [hpa, ih (fun x hx => h x (List.mem_cons_of_mem _ hx))]

theorem processAll_eq_map (rs : List Record) :
    processAll rs = (aggregateAll rs).map (fun pa => (pa.1, procOf pa.2)) := by
  unfold processAll
  exact filterMap_pos_eq_map _ count_pos_aggregateAll

theorem lookupA_map_snd {κ α β : Type} [DecidableEq κ] (f : α → β)
    (l : List (κ × α)) (q : κ) :
    lookupA (l.map (fun kv => (kv.1, f kv.2))) q = (lookupA l q).map f := by
  induction l with
  | nil => simp [lookupA]
  | cons kv t ih =>
    obtain ⟨k, a⟩ := kv
    by_cases h : k = q <;> simp [lookupA, h, ih]

theorem lookupA_processAll (rs : List Record) (p : String) :
    lookupA (processAll rs) p =
      if recordsFor rs p = [] then none else some (procOf (aggFor rs p)) := by
  rw [processAll_eq_map, lookupA_map_snd, lookupA_aggregateAll]
  by_cases h : recordsFor rs p = [] <;> simp [h]

theorem getD0_procOf (a : Agg) (d : String) :
    getD0 (procOf a).avg_scores d = getD0 a.scores d / (a.count : ℚ) := by
  unfold getD0
  rw [show (procOf a).avg_scores
        = a.scores.map (fun kv => (kv.1, kv.2 / (a.count : ℚ))) from rfl,
    lookupA_map_snd (fun v => v / (a.count : ℚ)) a.scores d]
  rcases lookupA a.scores d with _ | v <;> simp

/-! ## Claim C1 -/

/-- C1: for every entity present in the processed output and every
dimension `d`, the published average for `d` equals the sum of the
scores supplied for `d` across the entity's records divided by the
entity's total `sample_count` (the number of all its records, including
records that omitted `d`) — not by the count of records that supplied
`d`. -/
theorem c1_dimension_average (rs : List Record) (p : String) (pa : ProcAgg)
    (d : String) (h : lookupA (processAll rs) p = some pa) :
    getD0 pa.avg_scores d = dimSum rs p d / (sampleCount rs p : ℚ) := by
  rw [lookupA_processAll] at h
  by_cases hnil : recordsFor rs p = []
  · rw [if_pos hnil] at h; cases h
  · rw [if_neg hnil] at h
    injection h with h'
    rw [← h', getD0_procOf, aggFor_scores, aggFor_count]

/-- Witness for C1 at a concrete input: one record for `"A"` scoring
`conversational = 4`. -/
theorem c1_witness :
    getD0 (ProcAgg.mk 1 [("conversational", 4)] [] 0 0).avg_scores "conversational" =
      dimSum [Record.mk (some "A") [("conversational", 4)] none none none] "A"
          "conversational" /
        (sampleCount [Record.mk (some "A") [("conversational", 4)] none none none]
            "A" : ℚ) :=
  c1_dimension_average _ _ _ _ (by
    simp [processAll, aggregateAll, stepRecord, truthyS, upsertAgg, addRecord,
      emptyAgg, procOf, bumpQ, lookupA])

/-! ## Claim C2 -/

/-- C2: for every submission tree, the `sample_count` the aggregate
reports for an entity equals the number of successfully parsed records
whose (truthy) `product_name` equals that entity — records lacking a
`product_name` are discarded, and records that omitted scored fields
still count. -/
theorem c2_sample_count (t : DirTree) (p : String) (pa : ProcAgg)
    (h : lookupA (load_and_process_data (some t)).1 p = some pa) :
    pa.count = sampleCount (scanTree t).1 p := by
  simp only [load_and_process_data] at h
  rw [lookupA_processAll] at h
  by_cases hnil : recordsFor (scanTree t).1 p = []
  · rw [if_pos hnil] at h; cases h
  · rw [if_neg hnil] at h
    injection h with h'
    rw [← h', show (procOf (aggFor (scanTree t).1 p)).count
        = (aggFor (scanTree t).1 p).count from rfl, aggFor_count]

/-- Witness for C2: a tree with a single parsed submission for `"A"`. -/
theorem c2_witness :
    (ProcAgg.mk 1 [] [] 0 0).count =
      sampleCount
        (scanTree (DirTree.node
          [("a.json", FileContent.parsed (Record.mk (some "A") [] none none none))]
          DirForest.nil)).1 "A" :=
  c2_sample_count _ _ _ (by
    simp [load_and_process_data, scanTree, scanForest, scanFiles, endsWithJson,
      processAll, aggregateAll, stepRecord, truthyS, upsertAgg, addRecord,
      emptyAgg, procOf, bumpQ, lookupA])

/-! ## Claim C7 -/

theorem filtered_sum_bounds (l : List (String × ℚ)) (d : String)
    (hnd : (l.map Prod.fst).Nodup)
    (hb : ∀ kv ∈ l, kv.1 = d → 0 ≤ kv.2 ∧ kv.2 ≤ 5) :
    0 ≤ ((l.filter (fun kv => kv.1 = d)).map Prod.snd).sum ∧
      ((l.filter (fun kv => kv.1 = d)).map Prod.snd).sum ≤ 5 := by
  induction l with
  | nil => simp
  | cons kv t ih =>
    obtain ⟨k, v⟩ := kv
    simp only [List.map_cons, List.nodup_cons] at hnd
    by_cases h : k = d
    · subst h
      have ht : t.filter (fun kv => kv.1 = k) = [] := by
        rw [List.filter_eq_nil_iff]
        intro kv hkv
        simp only [decide_eq_true_eq]
        intro hk
        exact hnd.1 (by
          rw [← hk]
          exact List.mem_map_of_mem Prod.fst hkv)
      simp [List.filter_cons, ht]
      exact hb (k, v) (by simp) rfl
    · simp only [List.filter_cons, decide_eq_true_eq, h, if_false]
      exact ih hnd.2 (fun kv hkv hd => hb kv (List.mem_cons_of_mem _ hkv) hd)

theorem list_sum_nonneg {l : List ℚ} (h : ∀ x ∈ l, 0 ≤ x) : 0 ≤ l.sum := by
  induction l with
  | nil => simp
  | cons x t ih =>
    simp only [List.sum_cons]
    have := h x (by simp)
    have := ih (fun y hy => h y (List.mem_cons_of_mem _ hy))
    linarith

theorem list_sum_le_mul {l : List ℚ} (b : ℚ) (h : ∀ x ∈ l, x ≤ b) :
    l.sum ≤ l.length * b := by
  induction l with
  | nil => simp
  | cons x t ih =>
    simp only [List.sum_cons, List.length_cons]
    have := h x (by simp)
    have := ih (fun y hy => h y (List.mem_cons_of_mem _ hy))
    push_cast
    nlinarith

/-- C7: if every score a contributing record supplies for dimension `d`
lies in `[0, 5]` (records being JSON objects, their score keys are
unduplicated), then the published average for `d` lies in `[0, 5]`: the
zero-extended sum over `sample_count` records divided by `sample_count`
stays within the bounds. -/
theorem c7_average_bounds (rs : List Record) (p : String) (pa : ProcAgg)
    (d : String) (h : lookupA (processAll rs) p = some pa)
    (hnd : ∀ r ∈ recordsFor rs p, (r.scores.map Prod.fst).Nodup)
    (hb : ∀ r ∈ recordsFor rs p, ∀ kv ∈ r.scores, kv.1 = d → 0 ≤ kv.2 ∧ kv.2 ≤ 5) :
    0 ≤ getD0 pa.avg_scores d ∧ getD0 pa.avg_scores d ≤ 5 := by
  rw [lookupA_processAll] at h
  by_cases hnil : recordsFor rs p = []
  · rw [if_pos hnil] at h; cases h
  · rw [if_neg hnil] at h
    injection h with h'
    rw [← h', getD0_procOf, aggFor_scores, aggFor_count]
    have hcount : 0 < sampleCount rs p := by
      rcases List.exists_mem_of_ne_nil _ hnil with ⟨r, hr⟩
      exact List.length_pos.mpr hnil
    have hcastpos : (0 : ℚ) < (sampleCount rs p : ℚ) := by
      exact_mod_cast hcount
    have hper : ∀ x ∈ (recordsFor rs p).map (fun r => suppliedSum r d),
        0 ≤ x ∧ x ≤ 5 := by
      intro x hx
      rcases List.mem_map.mp hx with ⟨r, hr, rfl⟩
      exact filtered_sum_bounds r.scores d (hnd r hr) (hb r hr)
    constructor
    · exact div_nonneg (list_sum_nonneg (fun x hx => (hper x hx).1)) (le_of_lt hcastpos)
    · rw [div_le_iff₀ hcastpos]
      have hlen : ((recordsFor rs p).map (fun r => suppliedSum r d)).length
          = sampleCount rs p := by simp [sampleCount]
      have := list_sum_le_mul (l := (recordsFor rs p).map (fun r => suppliedSum r d))
        5 (fun x hx => (hper x hx).2)
      rw [hlen] at this
      calc dimSum rs p d
          = ((recordsFor rs p).map (fun r => suppliedSum r d)).sum := rfl
        _ ≤ (sampleCount rs p : ℚ) * 5 := this
        _ = 5 * (sampleCount rs p : ℚ) := by ring

/-- Witness for C7 at a concrete input: one record for `"A"` with
`conversational = 4 ∈ [0, 5]`. -/
theorem c7_witness :
    0 ≤ getD0 (ProcAgg.mk 1 [("conversational", 4)] [] 0 0).avg_scores
          "conversational" ∧
      getD0 (ProcAgg.mk 1 [("conversational", 4)] [] 0 0).avg_scores
          "conversational" ≤ 5 :=
  c7_average_bounds [Record.mk (some "A") [("conversational", 4)] none none none]
    "A" _ "conversational"
    (by simp [processAll, aggregateAll, stepRecord, truthyS, upsertAgg, addRecord,
      emptyAgg, procOf, bumpQ, lookupA])
    (by intro r hr; simp [recordsFor] at hr; simp [hr])
    (by
      intro r hr kv hkv hd
      simp [recordsFor] at hr
      rw [hr.1] at hkv
      simp at hkv
      rw [hkv]
      decide)

/-! ## Lemmas about the scanners -/

theorem scanFiles_append (a b : List (String × FileContent)) :
    scanFiles (a ++ b) =
      ((scanFiles a).1 ++ (scanFiles b).1, (scanFiles a).2 + (scanFiles b).2) := by
  induction a with
  | nil => simp [scanFiles]
  | cons f t ih =>
    obtain ⟨name, c⟩ := f
    by_cases hj : endsWithJson name
    · cases c
      · simp [scanFiles, hj, ih]; omega
      · simp [scanFiles, hj, ih]
    · simp [scanFiles, hj, ih]

mutual
theorem scanTree_eq_walk : ∀ t : DirTree, scanTree t = scanFiles (walkTree t)
  | .node fs forest => by
    rw [scanTree, walkTree, scanFiles_append, scanForest_eq_walk forest]

theorem scanForest_eq_walk : ∀ f : DirForest, scanForest f = scanFiles (walkForest f)
  | .nil => by simp [scanForest, walkForest, scanFiles]
  | .cons name t rest => by
    rw [scanForest, walkForest, scanFiles_append, scanTree_eq_walk t,
      scanForest_eq_walk rest]
end

theorem scanFiles_records (l : List (String × FileContent)) :
    (scanFiles l).1 =
      (l.filter (fun f => endsWithJson f.1)).filterMap (fun f => parseOk f.2) := by
  induction l with
  | nil => simp [scanFiles]
  | cons f t ih =>
    obtain ⟨name, c⟩ := f
    by_cases hj : endsWithJson name
    · cases c <;> simp [scanFiles, List.filter_cons, hj, parseOk, ih]
    · simp [scanFiles, List.filter_cons, hj, ih]

theorem scanFiles_diags (l : List (String × FileContent)) :
    (scanFiles l).2 =
      ((l.filter (fun f => endsWithJson f.1)).filter
        (fun f => isMalformed f.2)).length := by
  induction l with
  | nil => simp [scanFiles]
  | cons f t ih =>
    obtain ⟨name, c⟩ := f
    by_cases hj : endsWithJson name
    · cases c <;> simp [scanFiles, List.filter_cons, hj, isMalformed, ih]
    · simp [scanFiles, List.filter_cons, hj, ih]

theorem scanTree_records (t : DirTree) :
    (scanTree t).1 = (jsonFiles t).filterMap (fun f => parseOk f.2) := by
  rw [scanTree_eq_walk, jsonFiles, scanFiles_records]

theorem scanTree_diags (t : DirTree) :
    (scanTree t).2 = ((jsonFiles t).filter (fun f => isMalformed f.2)).length := by
  rw [scanTree_eq_walk, jsonFiles, scanFiles_diags]

/-! ## Claim C3 -/

/-- C3: a candidate file that fails to parse produces a diagnostic and
is excluded while the scan continues: in general the scan's records are
exactly the parses of the well-formed `.json` files in walk order and
its diagnostics count the malformed ones; in particular a directory
with one malformed file and two well-formed submissions for `"X"`
produces `sample_count = 2` with one diagnostic, and aggregation does
not abort. -/
theorem c3_parse_failure_tolerated :
    (∀ t : DirTree,
      (scanTree t).1 = (jsonFiles t).filterMap (fun f => parseOk f.2) ∧
      (scanTree t).2 = ((jsonFiles t).filter (fun f => isMalformed f.2)).length) ∧
    ((lookupA (load_and_process_data (some (DirTree.node
          [("bad.json", FileContent.malformed),
            ("x1.json", FileContent.parsed (Record.mk (some "X") [] none none none)),
            ("x2.json", FileContent.parsed (Record.mk (some "X") [] none none none))]
          DirForest.nil))).1 "X").map ProcAgg.count = some 2 ∧
      (load_and_process_data (some (DirTree.node
          [("bad.json", FileContent.malformed),
            ("x1.json", FileContent.parsed (Record.mk (some "X") [] none none none)),
            ("x2.json", FileContent.parsed (Record.mk (some "X") [] none none none))]
          DirForest.nil))).2 = 1) := by
  refine ⟨fun t => ⟨scanTree_records t, scanTree_diags t⟩, ?_, ?_⟩
  · norm_num [load_and_process_data, scanTree, scanForest, scanFiles, endsWithJson,
      processAll, aggregateAll, stepRecord, truthyS, upsertAgg, addRecord,
      emptyAgg, procOf, bumpQ, lookupA]
  · norm_num [load_and_process_data, scanTree, scanForest, scanFiles, endsWithJson]

/-! ## Claim C5 -/

/-- C5: an absent data root yields one diagnostic and an empty mapping
(no exception propagates); an existing root with zero candidate
submission files yields an empty mapping and no diagnostics. -/
theorem c5_empty_root :
    load_and_process_data none = ([], 1) ∧
    ∀ t : DirTree,
      (walkTree t).filter (fun f => endsWithJson f.1) = [] →
      load_and_process_data (some t) = ([], 0) := by
  refine ⟨rfl, fun t h => ?_⟩
  have h1 : (scanTree t).1 = [] := by
    rw [scanTree_records, jsonFiles, h]; rfl
  have h2 : (scanTree t).2 = 0 := by
    rw [scanTree_diags, jsonFiles, h]; rfl
  simp [load_and_process_data, h1, h2, processAll, aggregateAll]

/-- Witness for C5's second half: a root that contains a file, but no
`.json` candidate. -/
theorem c5_witness :
    load_and_process_data (some (DirTree.node
      [("readme.txt", FileContent.malformed)] DirForest.nil)) = ([], 0) :=
  c5_empty_root.2 _ (by simp [walkTree, walkForest, endsWithJson])

/-! ## Claim C6 -/

theorem suppliedSum_eq_zero {r : Record} {d : String}
    (h : ∀ kv ∈ r.scores, kv.1 ≠ d) : suppliedSum r d = 0 := by
  unfold suppliedSum
  have hf : r.scores.filter (fun kv => kv.1 = d) = [] := by
    rw [List.filter_eq_nil_iff]
    intro kv hkv
    simpa using h kv hkv
  rw [hf]
  rfl

theorem foldl_addRecord_scores_of_empty {l : List Record} {a : Agg}
    (h : ∀ r ∈ l, r.scores = []) : (l.foldl addRecord a).scores = a.scores := by
  induction l generalizing a with
  | nil => rfl
  | cons r t ih =>
    have hr : r.scores = [] := h r (by simp)
    have hone : (addRecord a r).scores = a.scores := by simp [addRecord, hr]
    rw [List.foldl_cons, ih (fun x hx => h x (List.mem_cons_of_mem _ hx)), hone]

theorem lookupA_mem {κ α : Type} [DecidableEq κ] {l : List (κ × α)} {q : κ}
    {v : α} (h : lookupA l q = some v) : (q, v) ∈ l := by
  induction l with
  | nil => cases h
  | cons kv t ih =>
    obtain ⟨k, a⟩ := kv
    by_cases hk : k = q
    · subst hk
      simp [lookupA] at h
      simp [h]
    · simp [lookupA, hk] at h
      exact List.mem_cons_of_mem _ (ih h)

/-- C6: a canonical dimension no record of an entity supplied has
average `0`; an entity whose records supplied no scores at all projects
to the all-zero spider series and still yields overview output (a
warning entry) rather than failing; and two `"Gemini"` records scoring
only `conversational` `4` and `5` yield averages `conversational = 4.5`
and `autonomy = 0` with `sample_count = 2`. -/
theorem c6_zero_defaults :
    (∀ (rs : List Record) (p : String) (pa : ProcAgg) (d : String),
      lookupA (processAll rs) p = some pa →
      (∀ r ∈ recordsFor rs p, ∀ kv ∈ r.scores, kv.1 ≠ d) →
      getD0 pa.avg_scores d = 0) ∧
    (∀ (rs : List Record) (p : String) (pa : ProcAgg),
      lookupA (processAll rs) p = some pa →
      (∀ r ∈ recordsFor rs p, r.scores = []) →
      spiderValues pa.avg_scores = [0, 0, 0, 0, 0] ∧
        OverviewEntry.warning p ∈ generate_overview (processAll rs)) ∧
    (lookupA (processAll
        [Record.mk (some "Gemini") [("conversational", 4)] none none none,
          Record.mk (some "Gemini") [("conversational", 5)] none none none])
        "Gemini" =
      some (ProcAgg.mk 2 [("conversational", 9 / 2)] [] 0 0) ∧
      getD0 (ProcAgg.mk 2 [("conversational", 9 / 2)] [] 0 0).avg_scores
          "conversational" = 9 / 2 ∧
      getD0 (ProcAgg.mk 2 [("conversational", 9 / 2)] [] 0 0).avg_scores
          "autonomy" = 0 ∧
      (ProcAgg.mk 2 [("conversational", 9 / 2)] [] 0 0).count = 2) := by
  refine ⟨?_, ?_, ?_⟩
  · intro rs p pa d h hno
    rw [lookupA_processAll] at h
    by_cases hnil : recordsFor rs p = []
    · rw [if_pos hnil] at h; cases h
    · rw [if_neg hnil] at h
      injection h with h2
      rw [← h2, getD0_procOf, aggFor_scores]
      have hz : dimSum rs p d = 0 := by
        unfold dimSum
        apply List.sum_eq_zero
        intro x hx
        rcases List.mem_map.mp hx with ⟨r, hr, rfl⟩
        exact suppliedSum_eq_zero (hno r hr)
      rw [hz, zero_div]
  · intro rs p pa h hempty
    have h0 := h
    rw [lookupA_processAll] at h
    by_cases hnil : recordsFor rs p = []
    · rw [if_pos hnil] at h; cases h
    · rw [if_neg hnil] at h
      injection h with h2
      have hsc : (aggFor rs p).scores = [] := by
        unfold aggFor
        rw [foldl_addRecord_scores_of_empty hempty]
        rfl
      have havs : pa.avg_scores = [] := by
        rw [← h2]
        simp [procOf, hsc]
      constructor
      · simp [spiderValues, dashLabels, havs, getD0, lookupA]
      · have hmem := lookupA_mem h0
        have := List.mem_map_of_mem
          (fun pa : String × ProcAgg =>
            if pa.2.avg_scores.isEmpty then OverviewEntry.warning pa.1
            else OverviewEntry.plot pa.1 (spiderValues pa.2.avg_scores)) hmem
        simpa [generate_overview, havs] using this
  · norm_num [processAll, aggregateAll, stepRecord, truthyS, upsertAgg, addRecord,
      emptyAgg, procOf, bumpQ, lookupA, getD0,
      show ¬("conversational" = "autonomy") from by decide]

/-- Witness for C6 at a concrete input: one record for `"B"` with no
scores at all renders the all-zero series and an overview warning. -/
theorem c6_witness :
    spiderValues (ProcAgg.mk 1 [] [] 0 0).avg_scores = [0, 0, 0, 0, 0] ∧
      OverviewEntry.warning "B" ∈
        generate_overview (processAll [Record.mk (some "B") [] none none none]) :=
  c6_zero_defaults.2.1 _ _ _
    (by simp [processAll, aggregateAll, stepRecord, truthyS, upsertAgg, addRecord,
      emptyAgg, procOf, bumpQ, lookupA])
    (by
      intro r hr
      simp [recordsFor] at hr
      rw [hr.1])

/-! ## Claim C4 -/

theorem safeCharSpec_eq (c : Nat) :
    (if (if (if 65 ≤ c ∧ c ≤ 90 then c + 32 else c) = 32 then 95
         else if 65 ≤ c ∧ c ≤ 90 then c + 32 else c) = 47 then 95
     else if (if 65 ≤ c ∧ c ≤ 90 then c + 32 else c) = 32 then 95
         else if 65 ≤ c ∧ c ≤ 90 then c + 32 else c) = safeCharSpec c := by
  unfold safeCharSpec
  split_ifs <;> omega

theorem safe_filename_eq_spec (name : List Nat) :
    safe_filename name = safeFilenameSpec name := by
  unfold safe_filename safeFilenameSpec pyLower replaceChar
  rw [List.map_map, List.map_map]
  have hmap : List.map
      (((fun c => if c = 47 then 95 else c) ∘ fun c => if c = 32 then 95 else c) ∘
        lowerCode) name = List.map safeCharSpec name := by
    apply List.map_congr_left
    intro c _
    simp only [Function.comp, lowerCode]
    exact safeCharSpec_eq c
  rw [hmap]

/-- C4: the reference loader derives the filename by lowercasing the
entity name and mapping each space and `/` to `_` (one character-wise
pass), appending `".json"`; an absent file yields an absent result with
no diagnostic, a malformed file yields an absent result plus one
diagnostic, and a parsed file yields its data — never an exception, and
the (pure) lookup is side-effect-free. -/
theorem c4_reference_loader :
    (∀ name : List Nat, safe_filename name = safeFilenameSpec name) ∧
    (∀ (fs : List (List Nat × SolContent)) (name : List Nat),
      (lookupA fs (safe_filename name) = none →
        load_solution_data fs name = (none, 0)) ∧
      (lookupA fs (safe_filename name) = some SolContent.malformed →
        load_solution_data fs name = (none, 1)) ∧
      (∀ d, lookupA fs (safe_filename name) = some (SolContent.parsed d) →
        load_solution_data fs name = (some d, 0))) := by
  constructor
  · exact safe_filename_eq_spec
  · intro fs name
    refine ⟨fun h => ?_, fun h => ?_, fun d h => ?_⟩ <;>
      simp only [load_solution_data, h]

/-- Witness for C4: looking up `"Gemini"` against a store whose
`gemini.json` is malformed yields an absent result and one
diagnostic. -/
theorem c4_witness :
    load_solution_data [(strCodes "gemini.json", SolContent.malformed)]
      (strCodes "Gemini") = (none, 1) :=
  (c4_reference_loader.2 _ _).2.1 (by decide)

/-! ## Claim C9 -/

theorem lookupA_upsertFS (fs : List (CapturePath × Payload)) (p : CapturePath)
    (v : Payload) (q : CapturePath) :
    lookupA (upsertFS fs p v) q = if q = p then some v else lookupA fs q := by
  induction fs with
  | nil =>
    by_cases h : q = p
    · subst h; simp [upsertFS, lookupA]
    · simp [upsertFS, lookupA, h, Ne.symm h]
  | cons kv t ih =>
    obtain ⟨k, w⟩ := kv
    by_cases hkp : k = p
    · subst hkp
      by_cases hq : q = k
      · subst hq; simp [upsertFS, lookupA]
      · simp [upsertFS, lookupA, hq, Ne.symm hq]
    · by_cases hqp : q = p
      · subst hqp
        simp [upsertFS, lookupA, hkp, ih]
      · by_cases hkq : k = q
        · subst hkq
          simp [upsertFS, lookupA, hkp, hqp, ih]
        · simp [upsertFS, lookupA, hkp, hqp, hkq, ih]

/-- Counterexample to C9 as stated: with the valid full name
`"John Doe"`, product choice `"Other"` and a blank other-product name,
`capture_all_data` returns an error and writes nothing, so a valid name
alone does not guarantee that a file is written. -/
theorem c9_counterexample : ¬c9Stated := by
  intro h
  obtain ⟨pname, hp⟩ :=
    h [] (strCodes "John Doe") (strCodes "Other") [] (by decide)
  have hc : capture_all_data [] (strCodes "John Doe") (strCodes "Other") [] =
      ([], CaptureStatus.errSpecifyProduct) := by decide
  rw [hc] at hp
  exact CaptureStatus.noConfusion (congrArg Prod.snd hp)

/-- C9 amended: an invalid full name (fewer than two purely alphabetic
whitespace-separated parts) yields the name error and leaves the store
unchanged; a valid name with product `"Other"` but a blank
other-product name yields the specify-product error and leaves the
store unchanged; otherwise exactly one file is written — the store
becomes an upsert at `./data/<formatted username>/<safe product
name>.json`, every other path unchanged. -/
theorem c9_capture_behaviour :
    ∀ (fs : List (CapturePath × Payload)) (u sp op : List Nat),
      (validFullName u = false →
        capture_all_data fs u sp op = (fs, CaptureStatus.errFullName)) ∧
      (validFullName u = true → sp = strCodes "Other" → pyStrip op = [] →
        capture_all_data fs u sp op = (fs, CaptureStatus.errSpecifyProduct)) ∧
      (validFullName u = true → sp = strCodes "Other" → pyStrip op ≠ [] →
        capture_all_data fs u sp op =
          (upsertFS fs (capturePath u (pyStrip op))
            (Payload.mk (formattedUsername u) (pyStrip op)),
            CaptureStatus.saved)) ∧
      (validFullName u = true → sp ≠ strCodes "Other" →
        capture_all_data fs u sp op =
          (upsertFS fs (capturePath u sp)
            (Payload.mk (formattedUsername u) sp), CaptureStatus.saved)) ∧
      (∀ (p : CapturePath) (v : Payload),
        lookupA (upsertFS fs p v) p = some v ∧
          ∀ q, q ≠ p → lookupA (upsertFS fs p v) q = lookupA fs q) := by
  intro fs u sp op
  refine ⟨fun hv => ?_, fun hv ho hb => ?_, fun hv ho hb => ?_, fun hv ho => ?_,
    fun p v => ⟨?_, fun q hq => ?_⟩⟩
  · simp [capture_all_data, hv]
  · simp [capture_all_data, hv, ho, hb]
  · simp [capture_all_data, hv, ho, hb]
  · simp [capture_all_data, hv, ho]
  · simp [lookupA_upsertFS]
  · simp [lookupA_upsertFS, hq]

/-- Witness for C9 (amended): a valid name and a concrete product write
exactly the expected file. -/
theorem c9_witness :
    capture_all_data [] (strCodes "John Doe") (strCodes "Gemini") [] =
      (upsertFS [] (capturePath (strCodes "John Doe") (strCodes "Gemini"))
        (Payload.mk (formattedUsername (strCodes "John Doe")) (strCodes "Gemini")),
        CaptureStatus.saved) :=
  (c9_capture_behaviour [] (strCodes "John Doe") (strCodes "Gemini") []).2.2.2.1
    (by decide) (by decide)

/-! ## Claim C8 -/

theorem walk_deepTree (n : Nat) (fs : List (String × FileContent)) :
    walkTree (deepTree n fs) = fs := by
  induction n with
  | zero => simp [deepTree, walkTree, walkForest]
  | succ m ih => simp [deepTree, walkTree, walkForest, ih]

theorem sampleCount_filterMap (l : List (String × FileContent)) (p : String) :
    sampleCount (l.filterMap (fun f => parseOk f.2)) p =
      (l.filter (fun f =>
        (parseOk f.2).elim false
          (fun r => decide (truthyS r.product_name = some p)))).length := by
  induction l with
  | nil => simp [sampleCount, recordsFor]
  | cons f t ih =>
    rcases hc : f.2 with _ | r
    · have hp : parseOk f.2 = none := by rw [hc]; rfl
      simp [List.filterMap_cons, List.filter_cons, hp, ih]
    · have hp : parseOk f.2 = some r := by rw [hc]; rfl
      by_cases ht : truthyS r.product_name = some p
      · have hcnt : sampleCount (r :: t.filterMap (fun f => parseOk f.2)) p =
            sampleCount (t.filterMap (fun f => parseOk f.2)) p + 1 := by
          simp [sampleCount, recordsFor_cons_hit _ ht]
        simp [List.filterMap_cons, List.filter_cons, hp, hcnt, ih, ht]
      · have hcnt : sampleCount (r :: t.filterMap (fun f => parseOk f.2)) p =
            sampleCount (t.filterMap (fun f => parseOk f.2)) p := by
          simp [sampleCount, recordsFor_cons_skip _ ht]
        simp [List.filterMap_cons, List.filter_cons, hp, hcnt, ih, ht]

theorem summaryForest_records : ∀ forest : DirForest,
    (summaryForest forest).1 =
      ((firstLevelFiles forest).filter (fun f => endsWithJson f.1)).filterMap
        (fun f => parseOk f.2)
  | .nil => by simp [summaryForest, firstLevelFiles]
  | .cons name (.node fs subs) rest => by
    simp [summaryForest, scanUserDir, firstLevelFiles, scanFiles_records,
      summaryForest_records rest, List.filter_append]

/-- Counterexample to C8 as stated: a well-formed `deep.json` nested
two directories below the data root is a candidate file of the tree,
yet the summary-report scanner (one of the claim's cited scan sites)
produces no record for it. -/
theorem c8_counterexample : ¬c8Stated := by
  intro h
  have hmem :
      ("deep.json", FileContent.parsed (Record.mk (some "P") [] none none none)) ∈
        jsonFiles (DirTree.node []
          (DirForest.cons "u" (DirTree.node []
            (DirForest.cons "v" (DirTree.node
              [("deep.json",
                FileContent.parsed (Record.mk (some "P") [] none none none))]
              DirForest.nil) DirForest.nil)) DirForest.nil)) := by
    simp [jsonFiles, walkTree, walkForest, List.filter_cons,
      show endsWithJson "deep.json" = true from by decide]
  have := h _ _ ⟨_, hmem, rfl⟩
  simp [summaryScan, summaryForest, scanUserDir, scanFiles,
    countJsonNamedDirs] at this

/-- C8 amended: the dashboard scanner (`os.walk`) finds candidate files
at any nesting depth and counts every matching file as a separate record
(no deduplication by path: two submissions for the same entity from two
submitters count twice), while the summary-report scanner reads only the
immediate `.json` files of the first-level subdirectories of the data
root. -/
theorem c8_scan_depth :
    (∀ (n : Nat) (fs : List (String × FileContent)),
      walkTree (deepTree n fs) = fs) ∧
    (∀ (t : DirTree) (p : String),
      sampleCount (scanTree t).1 p =
        ((jsonFiles t).filter (fun f =>
          (parseOk f.2).elim false
            (fun r => decide (truthyS r.product_name = some p)))).length) ∧
    (∀ forest : DirForest,
      (summaryScan (DirTree.node [] forest)).1 =
        ((firstLevelFiles forest).filter (fun f => endsWithJson f.1)).filterMap
          (fun f => parseOk f.2)) ∧
    sampleCount
      (scanTree (DirTree.node []
        (DirForest.cons "u1" (DirTree.node
          [("gemini.json",
            FileContent.parsed (Record.mk (some "G") [] none none none))]
          DirForest.nil)
        (DirForest.cons "u2" (DirTree.node
          [("gemini.json",
            FileContent.parsed (Record.mk (some "G") [] none none none))]
          DirForest.nil) DirForest.nil)))).1 "G" = 2 := by
  refine ⟨walk_deepTree, fun t p => ?_, fun forest => ?_, ?_⟩
  · rw [scanTree_records, sampleCount_filterMap]
  · simp [summaryScan, summaryForest_records]
  · simp [scanTree, scanForest, scanFiles,
      show endsWithJson "gemini.json" = true from by decide,
      sampleCount, recordsFor, List.filter_cons, truthyS]

/-! ## Claim C10 -/

theorem removeAllAux_nil (pat : List Nat) (fuel : Nat) :
    removeAllAux pat fuel [] = [] := by
  cases fuel <;> rfl

theorem removeAllAux_strip : ∀ (base : List Nat) (fuel : Nat),
    base.length + 5 ≤ fuel → hasSub extCodes base = false →
    removeAllAux extCodes fuel (base ++ extCodes) = base := by
  intro base
  induction base with
  | nil =>
    intro fuel hf _
    cases fuel with
    | zero => simp at hf
    | succ f => simp [extCodes, removeAllAux, removeAllAux_nil]
  | cons c t ih =>
    intro fuel hf hsub
    have hstep : hasSub extCodes (c :: t) =
        (decide ((c :: t).take extCodes.length = extCodes) || hasSub extCodes t) :=
      rfl
    have hboth := Bool.or_eq_false_iff.mp (hstep ▸ hsub)
    have hsub2 : hasSub extCodes t = false := hboth.2
    have hhead : ¬((c :: t).take extCodes.length = extCodes) :=
      of_decide_eq_false hboth.1
    cases fuel with
    | zero => simp at hf
    | succ f =>
      have hcond : ¬((c :: (t ++ extCodes)).take extCodes.length = extCodes) := by
        rcases t with _ | ⟨a, _ | ⟨b, _ | ⟨e, _ | ⟨g, rest⟩⟩⟩⟩
        · simp [extCodes]
        · simp [extCodes]
        · simp [extCodes]
        · simp [extCodes]
        · intro hcontra
          apply hhead
          simp [extCodes] at hcontra ⊢
          exact hcontra
      show removeAllAux extCodes (f + 1) (c :: (t ++ extCodes)) = c :: t
      rw [removeAllAux]
      rw [if_neg (fun hand => hcond hand.1)]
      have hle : t.length + 5 ≤ f := by
        simp only [List.length_cons] at hf
        omega
      rw [ih f hle hsub2]

theorem removeAll_strip (base : List Nat) (h : hasSub extCodes base = false) :
    removeAll extCodes (base ++ extCodes) = base := by
  unfold removeAll
  exact removeAllAux_strip base (base ++ extCodes).length
    (by simp [extCodes]) h

theorem roundtrip_map (base : List Nat)
    (h : ∀ c ∈ base, ¬(65 ≤ c ∧ c ≤ 90) ∧ c ≠ 32 ∧ c ≠ 47) :
    ∀ prev : Bool,
      List.map safeCharSpec (pyTitleAux prev (replaceChar base 95 32)) = base := by
  induction base with
  | nil => intro prev; rfl
  | cons c t ih =>
    intro prev
    obtain ⟨hup, h32, h47⟩ := h c (by simp)
    have ht := ih (fun x hx => h x (List.mem_cons_of_mem _ hx))
    by_cases h95 : c = 95
    · subst h95
      have e1 : replaceChar (95 :: t) 95 32 = 32 :: replaceChar t 95 32 := by
        simp [replaceChar]
      have e2 : pyTitleAux prev (32 :: replaceChar t 95 32) =
          32 :: pyTitleAux false (replaceChar t 95 32) := by
        simp [pyTitleAux, show isAlphaCode 32 = false from by decide]
      rw [e1, e2, List.map_cons, show safeCharSpec 32 = 95 from by decide, ht false]
    · have e1 : replaceChar (c :: t) 95 32 = c :: replaceChar t 95 32 := by
        simp [replaceChar, h95]
      by_cases hlo : 97 ≤ c ∧ c ≤ 122
      · have halpha : isAlphaCode c = true := by
          simp [isAlphaCode]
          omega
        cases prev with
        | true =>
          have e2 : pyTitleAux true (c :: replaceChar t 95 32) =
              lowerCode c :: pyTitleAux true (replaceChar t 95 32) := by
            simp [pyTitleAux, halpha]
          have hlc : lowerCode c = c := by
            simp only [lowerCode]
            rw [if_neg (by omega)]
          have hspec : safeCharSpec c = c := by
            simp only [safeCharSpec]
            split_ifs <;> omega
          rw [e1, e2, hlc, List.map_cons, hspec, ht true]
        | false =>
          have e2 : pyTitleAux false (c :: replaceChar t 95 32) =
              upperCode c :: pyTitleAux true (replaceChar t 95 32) := by
            simp [pyTitleAux, halpha]
          have huc : upperCode c = c - 32 := by
            simp only [upperCode]
            rw [if_pos (by omega)]
          have hspec : safeCharSpec (c - 32) = c := by
            simp only [safeCharSpec]
            split_ifs <;> omega
          rw [e1, e2, huc, List.map_cons, hspec, ht true]
      · have halpha : isAlphaCode c = false := by
          simp [isAlphaCode]
          omega
        have e2 : pyTitleAux prev (c :: replaceChar t 95 32) =
            c :: pyTitleAux false (replaceChar t 95 32) := by
          simp [pyTitleAux, halpha]
        have hspec : safeCharSpec c = c := by
          simp only [safeCharSpec]
          split_ifs <;> omega
        rw [e1, e2, List.map_cons, hspec, ht false]

/-- Counterexample to C10 as stated: the base name `"a.json"` is
lowercase with no spaces and no slashes, but Python `replace` removes
every `".json"` occurrence, so the file `"a.json.json"` round-trips to
`"a.json"`, not to itself. -/
theorem c10_counterexample : ¬c10Stated := by
  intro h
  exact absurd (h (strCodes "a.json") (by decide)) (by decide)

/-- C10 amended: for every solution filename `<base>.json` whose base is
lowercase with no spaces, no slashes, and no embedded `".json"`
occurrence, the report generators' product-name derivation (strip
`".json"`, `_`→space, title-case) composed with the loader's filename
sanitization (lowercase, space/`/`→`_`, append `".json"`) is the
identity, so such solution files are loaded rather than missed. -/
theorem c10_roundtrip (base : List Nat)
    (h : ∀ c ∈ base, ¬(65 ≤ c ∧ c ≤ 90) ∧ c ≠ 32 ∧ c ≠ 47)
    (hsub : hasSub extCodes base = false) :
    safe_filename (filename_to_product_name (base ++ extCodes)) =
      base ++ extCodes := by
  unfold filename_to_product_name
  rw [removeAll_strip base hsub, safe_filename_eq_spec]
  unfold safeFilenameSpec pyTitle
  rw [roundtrip_map base h false]

/-- Witness for C10 (amended): `"gemini.json"` round-trips to itself. -/
theorem c10_witness :
    safe_filename (filename_to_product_name (strCodes "gemini" ++ extCodes)) =
      strCodes "gemini" ++ extCodes :=
  c10_roundtrip (strCodes "gemini") (by decide) (by decide)

end UX4AI
